import Mathlib

/-!
Verification of the seenunseen book-extractor script
(`download_books_name.py`): a shallow embedding of its pure core —
sitemap parsing, Amazon-link extraction, title inference, ASIN
extraction, generic-title classification, deduplication and CSV
rendering — together with theorems settling the frozen claims.

Strings are modelled as `List Char` in the core scanning functions
(Python iterates over code points) with `String` wrappers where the
script passes strings around.  Regular-expression searches of the
script are modelled by dedicated scanning functions that reproduce the
leftmost-match / greedy-backtracking semantics of each concrete
pattern, as analysed pattern by pattern.  Network fetches are modelled
by `Option`-valued inputs (`none` is the exception path of the
corresponding `try`/`except` block).
-/

set_option maxHeartbeats 1000000

namespace SeenUnseen

/-- ASCII subset of the Python regex class `\s` (and of `str.strip`):
space, tab, newline, carriage return, vertical tab, form feed. -/
def isWsChar (c : Char) : Bool :=
  c == ' ' || c == '\t' || c == '\n' || c == '\r' || c == '\x0b' || c == '\x0c'

/-- Python `str.strip()`: drop leading and trailing whitespace. -/
def pyStrip (s : List Char) : List Char :=
  ((s.dropWhile isWsChar).reverse.dropWhile isWsChar).reverse

/-- Python `str.lower()` (ASCII case mapping). -/
def pyLower (s : List Char) : List Char :=
  s.map Char.toLower

/-- Match a literal at the head of the input, returning the remainder. -/
def dropLit : List Char → List Char → Option (List Char)
  | [], s => some s
  | _ :: _, [] => none
  | p :: ps, c :: cs => if p = c then dropLit ps cs else none

/-- Match `tok1 \s+ tok2 \s+ ... \s+ tokn` at the head of the input,
returning the remainder after the last token.  Since the tokens start
with non-whitespace characters, the greedy `\s+` of the Python
patterns is equivalent to consuming one whitespace character and then
the whole whitespace run. -/
def matchToks : List (List Char) → List Char → Option (List Char)
  | [], s => some s
  | [t], s => dropLit t s
  | t :: t2 :: ts, s =>
    match dropLit t s with
    | none => none
    | some r =>
      match r with
      | [] => none
      | c :: r2 =>
        if isWsChar c then matchToks (t2 :: ts) (r2.dropWhile isWsChar) else none

/-- Anchored variant (`re.match` with a trailing `$` in the pattern):
the whole input must be consumed. -/
def matchToksFull (ts : List (List Char)) (s : List Char) : Bool :=
  matchToks ts s == some []

/-- Unanchored-at-the-end variant (`re.match` without `$`): the pattern
must match at the start of the input only. -/
def matchToksHead (ts : List (List Char)) (s : List Char) : Bool :=
  (matchToks ts s).isSome

/-- `is_generic_title` of the script: lowercase and strip the title,
run `re.match` against the fixed pattern list (all patterns are
anchored at the start by `re.match`; all but `amazon\s+link` also end
with `$`), and finally flag any stripped title shorter than 5
characters. -/
def is_generic_title (title : String) : Bool :=
  let t := pyStrip (pyLower title.data)
  matchToksFull ["amazon".data, "book".data, "link".data] t ||
  matchToksFull ["buy".data, "here".data] t ||
  matchToksFull ["on".data, "amazon".data] t ||
  matchToksFull ["here".data] t ||
  (!t.isEmpty && t.all Char.isDigit) ||
  matchToksFull ["click".data, "here".data] t ||
  matchToksFull ["link".data] t ||
  matchToksFull ["book".data] t ||
  matchToksFull ["amazon".data] t ||
  matchToksHead ["amazon".data, "link".data] t ||
  decide (t.length < 5)

/-- The regex class `[A-Z0-9]` of the ASIN patterns. -/
def isAsinChar (c : Char) : Bool :=
  (decide (65 ≤ c.toNat) && decide (c.toNat ≤ 90)) ||
  (decide (48 ≤ c.toNat) && decide (c.toNat ≤ 57))

/-- Capture `[A-Z0-9]{10}` at the head of the input. -/
def grabAsin (s : List Char) : Option (List Char) :=
  let cand := s.take 10
  if cand.length == 10 && cand.all isAsinChar then some cand else none

/-- `re.search` for `LIT([A-Z0-9]{10})`: try every start position from
the left; at each, match the literal and then capture ten ASIN
characters. -/
def searchLitAsin (lit : List Char) : List Char → Option (List Char)
  | [] => (dropLit lit []).bind grabAsin
  | c :: rest =>
    match (dropLit lit (c :: rest)).bind grabAsin with
    | some a => some a
    | none => searchLitAsin lit rest

/-- One attempt of the pattern `amazon\.[^/]+/([A-Z0-9]{10})/` at the
current position.  The greedy `[^/]+` necessarily extends to the next
slash (a shorter run would have to be followed by `/`, impossible
inside a slash-free run), so the attempt is deterministic. -/
def bareAt (s : List Char) : Option (List Char) :=
  match dropLit "amazon.".data s with
  | none => none
  | some r =>
    let seg := r.takeWhile (fun c => !(c == '/'))
    if seg.isEmpty then none
    else
      match r.drop seg.length with
      | '/' :: r2 =>
        match grabAsin r2 with
        | some a => if (r2.drop 10).head? == some '/' then some a else none
        | none => none
      | _ => none

/-- `re.search` for `amazon\.[^/]+/([A-Z0-9]{10})/`. -/
def searchBare : List Char → Option (List Char)
  | [] => none
  | c :: rest =>
    match bareAt (c :: rest) with
    | some a => some a
    | none => searchBare rest

/-- `extract_asin` of the script: the four patterns are tried in fixed
order and the first match's captured group is returned. -/
def extract_asin (amazon_url : String) : Option String :=
  match searchLitAsin "/dp/".data amazon_url.data with
  | some a => some (String.mk a)
  | none =>
    match searchLitAsin "/gp/product/".data amazon_url.data with
    | some a => some (String.mk a)
    | none =>
      match searchLitAsin "/product/".data amazon_url.data with
      | some a => some (String.mk a)
      | none =>
        match searchBare amazon_url.data with
        | some a => some (String.mk a)
        | none => none

/-- An episode descriptor as produced by `fetch_sitemap`. -/
structure Episode where
  url : String
  year : String
  month : String
  day : String
  episode_num : String
  title : String
  date : String
deriving DecidableEq

/-- A raw book occurrence as produced by `fetch_and_extract_books`;
the episode fields are absent (`none`) when no `episode_info` was
passed. -/
structure Book where
  title : String
  link : String
  episode_num : Option String
  episode_title : Option String
  episode_date : Option String
  episode_url : Option String
deriving DecidableEq

/-- One provenance entry of a canonical book's `episodes` list
(built with `book.get(...)`, hence `Option`-valued fields). -/
structure EpisodeRef where
  episode_num : Option String
  episode_title : Option String
  episode_date : Option String
  episode_url : Option String
deriving DecidableEq

/-- A canonical record of `asin_map`. -/
structure CanonicalBook where
  asin : String
  title : String
  link : String
  episodes : List EpisodeRef
deriving DecidableEq

/-- The provenance entry appended for one occurrence. -/
def epRef (b : Book) : EpisodeRef :=
  ⟨b.episode_num, b.episode_title, b.episode_date, b.episode_url⟩

/-- The unconditional per-occurrence mutation of an existing entry:
append the provenance entry, then upgrade the stored title only if it
is generic and the occurrence's title is not. -/
def applyOccurrence (b : Book) (cb : CanonicalBook) : CanonicalBook :=
  let cb1 : CanonicalBook := { cb with episodes := cb.episodes ++ [epRef b] }
  if is_generic_title cb1.title && !is_generic_title b.title then
    { cb1 with title := b.title }
  else cb1

/-- Update every entry of the insertion-ordered map that carries the
given ASIN (the Python dict holds at most one). -/
def updateCanon (l : List CanonicalBook) (a : String) (f : CanonicalBook → CanonicalBook) :
    List CanonicalBook :=
  l.map (fun cb => if cb.asin = a then f cb else cb)

/-- One iteration of the `for book in books` loop of
`deduplicate_books`.  The state is the insertion-ordered `asin_map`
together with `books_without_asin`. -/
def dedupStep (st : List CanonicalBook × List Book) (b : Book) :
    List CanonicalBook × List Book :=
  match extract_asin b.link with
  | none => (st.1, st.2 ++ [b])
  | some a =>
    let m :=
      if st.1.any (fun cb => cb.asin == a) then st.1
      else st.1 ++ [⟨a, b.title, b.link, []⟩]
    (updateCanon m a (applyOccurrence b), st.2)

/-- `deduplicate_books` of the script: fold the occurrence stream into
the ASIN map (values in first-seen order) and the no-ASIN side list. -/
def deduplicate_books (books : List Book) : List CanonicalBook × List Book :=
  books.foldl dedupStep ([], [])

/-- Lookup in the insertion-ordered map. -/
def findCanon (l : List CanonicalBook) (a : String) : Option CanonicalBook :=
  l.find? (fun cb => cb.asin == a)

/-! ### Title cleaning helpers (`re.sub` calls of the script) -/

/-- One-pass model of `re.sub(r'\s+', ' ', s)`: every maximal
whitespace run becomes a single space.  The flag records whether the
previous character was whitespace. -/
def collapseWsAux : Bool → List Char → List Char
  | _, [] => []
  | inWs, c :: rest =>
    if isWsChar c then
      (if inWs then [] else [' ']) ++ collapseWsAux true rest
    else c :: collapseWsAux false rest

/-- `re.sub(r'\s+', ' ', s)`. -/
def collapseWs (s : List Char) : List Char :=
  collapseWsAux false s

/-- `re.sub(r'&nbsp;', ' ', s)`: left-to-right non-overlapping
replacement of the literal entity. -/
def replaceNbsp : List Char → List Char
  | '&' :: 'n' :: 'b' :: 's' :: 'p' :: ';' :: rest => ' ' :: replaceNbsp rest
  | c :: rest => c :: replaceNbsp rest
  | [] => []

/-- After an opening `<`, scan `[^>]+>`: at least one non-`>`
character, then the closing `>`; returns the remainder. -/
def dropTagCont : List Char → Option (List Char)
  | [] => none
  | '>' :: rest => some rest
  | _ :: rest => dropTagCont rest

/-- Attempt of `[^>]+>` right after a `<`. -/
def dropTag : List Char → Option (List Char)
  | [] => none
  | '>' :: _ => none
  | _ :: rest => dropTagCont rest

/-- `re.sub(r'<[^>]+>', '', s)`: remove every leftmost non-overlapping
tag; a `<` with no matching `>` (or immediately followed by `>`) is
kept literally.  Fuel bounds the recursion; `s.length` is enough since
every step consumes at least one character. -/
def stripTagsF : Nat → List Char → List Char
  | 0, s => s
  | fuel + 1, s =>
    match s with
    | [] => []
    | '<' :: rest =>
      match dropTag rest with
      | some r => stripTagsF fuel r
      | none => '<' :: stripTagsF fuel rest
    | c :: rest => c :: stripTagsF fuel rest

/-- `re.sub(r'<[^>]+>', '', s)`. -/
def stripTags (s : List Char) : List Char :=
  stripTagsF s.length s

/-- The regex class `[.!?;,\n]` used by `re.split`. -/
def isPunctSplit (c : Char) : Bool :=
  c == '.' || c == '!' || c == '?' || c == ';' || c == ',' || c == '\n'

/-- Accumulator-based splitter for `re.split(r'[.!?;,\n]', s)`;
consecutive delimiters produce empty fragments, as in Python. -/
def splitPunctAux : List Char → List Char → List (List Char)
  | [], acc => [acc.reverse]
  | c :: rest, acc =>
    if isPunctSplit c then acc.reverse :: splitPunctAux rest []
    else splitPunctAux rest (c :: acc)

/-- `re.split(r'[.!?;,\n]', s)`. -/
def splitPunct (s : List Char) : List (List Char) :=
  splitPunctAux s []

/-- The `for part in reversed(parts)` loop: strip each fragment and
return the first whose length is strictly between 10 and 200. -/
def pickFragment : List (List Char) → Option (List Char)
  | [] => none
  | p :: ps =>
    let t := pyStrip p
    if 10 < t.length && t.length < 200 then some t else pickFragment ps

/-- The anchor-text cleanup of the script:
`re.sub(r'\s+', ' ', raw).strip()` then `re.sub(r'&nbsp;', ' ', ...)`. -/
def cleanTitle (raw : List Char) : List Char :=
  replaceNbsp (pyStrip (collapseWs raw))

/-! ### The context search `([^<>]{0,200})LINK([^<>]{0,200})`

`re.search` with `re.DOTALL`.  The second group can always match
empty, so it never constrains the search and is not modelled (the
script never uses it).  At a given start position the greedy first
group tries window sizes from `min 200 (length of the angle-bracket
free run)` downwards; the search succeeds at the leftmost start
position admitting some window. -/

/-- Length of the maximal `[^<>]` run at the head of the input. -/
def cleanRunLen (s : List Char) : Nat :=
  (s.takeWhile (fun c => !(c == '<' || c == '>'))).length

/-- Try window sizes `k, k-1, ..., 0` (the greedy backtracking order):
succeed with the window `s.take k` once the link matches right after
it. -/
def tryCtxK (link s : List Char) : Nat → Option (List Char)
  | 0 => if link.isPrefixOf s then some [] else none
  | k + 1 =>
    if link.isPrefixOf (s.drop (k + 1)) then some (s.take (k + 1))
    else tryCtxK link s k

/-- One attempt of the context pattern at the current position. -/
def ctxAt (link s : List Char) : Option (List Char) :=
  tryCtxK link s (min 200 (cleanRunLen s))

/-- Leftmost search for the context pattern; returns the first
(`before`) group. -/
def ctxSearch (link : List Char) : List Char → Option (List Char)
  | [] => ctxAt link []
  | c :: rest =>
    match ctxAt link (c :: rest) with
    | some b => some b
    | none => ctxSearch link rest

/-! ### The anchor search
`<a[^>]*href=["\'][^"\']*LINK[^"\']*["\'][^>]*>([^<]+)</a>`
with `re.IGNORECASE`.

Backtracking analysis: the two quote-run pieces and the `[^>]*>` and
`([^<]+)</a>` pieces are deterministic (a shorter greedy run would
place a character of the excluded class where a literal from the same
class is required), so the only genuine backtracking is over the
position of `href=` inside the `[^>]*` run (greedy: rightmost first)
and the position of the link inside the quote-free run (greedy:
rightmost first), and over the start position (leftmost first). -/

/-- Case-insensitive character equality (ASCII folding, as applied by
`re.IGNORECASE` on these ASCII patterns). -/
def ciChar (a b : Char) : Bool :=
  a.toLower == b.toLower

/-- Case-insensitive literal prefix test. -/
def ciPre : List Char → List Char → Bool
  | [], _ => true
  | _ :: _, [] => false
  | p :: ps, c :: cs => ciChar p c && ciPre ps cs

/-- Not a `>` (the class `[^>]`). -/
def notGt (c : Char) : Bool :=
  !(c == '>')

/-- Not a quote character (the class `[^"\']`). -/
def notQuote (c : Char) : Bool :=
  !(c == '"' || c.toNat == 39)

/-- A quote character (the class `["\']`). -/
def isQuote (c : Char) : Bool :=
  c == '"' || c.toNat == 39

/-- After the link inside the attribute value: `[^"\']*["\']` (to the
first quote, inclusive), then `[^>]*>` (to the first `>`, inclusive),
then capture `([^<]+)` (the maximal non-`<` run, nonempty) and require
the literal `</a>`. -/
def afterValue (u : List Char) : Option (List Char) :=
  match u.drop ((u.takeWhile notQuote).length) with
  | [] => none
  | _ :: v =>
    match v.drop ((v.takeWhile notGt).length) with
    | [] => none
    | _ :: x =>
      let inner := x.takeWhile (fun c => !(c == '<'))
      if inner.length != 0 && ciPre "</a>".data (x.drop inner.length) then some inner
      else none

/-- Try link positions `p, p-1, ..., 0` inside the quote-free run of
the attribute value (the greedy backtracking order of the first
`[^"\']*`). -/
def tryLinkPos (link t2 : List Char) : Nat → Option (List Char)
  | 0 => if ciPre link t2 then afterValue (t2.drop link.length) else none
  | p + 1 =>
    match
      (if ciPre link (t2.drop (p + 1)) then afterValue (t2.drop (p + 1 + link.length))
       else none)
    with
    | some r => some r
    | none => tryLinkPos link t2 p

/-- After a matched `href=`: an opening quote, then the attribute
value containing the link. -/
def anchorAfterHref (link t : List Char) : Option (List Char) :=
  match t with
  | [] => none
  | c :: t2 =>
    if isQuote c then tryLinkPos link t2 ((t2.takeWhile notQuote).length)
    else none

/-- Try `href=` positions `o, o-1, ..., 0` inside the `[^>]*` run
following `<a` (the greedy backtracking order). -/
def tryHrefPos (link s2 : List Char) : Nat → Option (List Char)
  | 0 =>
    if ciPre "href=".data s2 then anchorAfterHref link (s2.drop 5) else none
  | o + 1 =>
    match
      (if ciPre "href=".data (s2.drop (o + 1)) then
        anchorAfterHref link (s2.drop (o + 1 + 5))
       else none)
    with
    | some r => some r
    | none => tryHrefPos link s2 o

/-- One attempt of the anchor pattern at the current position. -/
def anchorAt (link s : List Char) : Option (List Char) :=
  if ciPre "<a".data s then
    let s2 := s.drop 2
    tryHrefPos link s2 ((s2.takeWhile notGt).length)
  else none

/-- Leftmost search for the anchor pattern; returns the captured inner
text. -/
def anchorSearch (link : List Char) : List Char → Option (List Char)
  | [] => none
  | c :: rest =>
    match anchorAt link (c :: rest) with
    | some t => some t
    | none => anchorSearch link rest

/-- The fallback computation on a context window: strip tags, collapse
whitespace, strip, and if longer than 10 characters pick the fragment
closest to the link among the punctuation-split fragments. -/
def fragmentFallback (before : List Char) : Option (List Char) :=
  let bc := pyStrip (collapseWs (stripTags before))
  if 10 < bc.length then pickFragment (splitPunct bc).reverse
  else none

/-- The placeholder title of the script. -/
def placeholderTitle : List Char :=
  "Amazon Book Link".data

/-- The per-link title inference of `fetch_and_extract_books`:
`title = "Amazon Book Link"`, overwritten by the anchor inner text
(cleaned) if the anchor search succeeds, else by the nearest suitable
fragment of the context window — all guarded by the context search. -/
def inferTitle (html link : List Char) : List Char :=
  match ctxSearch link html with
  | none => placeholderTitle
  | some before =>
    match anchorSearch link html with
    | some raw => cleanTitle raw
    | none =>
      match fragmentFallback before with
      | some f => f
      | none => placeholderTitle

/-! ### Link extraction (`findall` of the two URL patterns) -/

/-- The regex class `[^\s<>"&]`. -/
def isLinkChar (c : Char) : Bool :=
  !(isWsChar c || c == '<' || c == '>' || c == '"' || c == '&')

/-- `https?://` (greedy `s?`): the two possibilities are mutually
exclusive literals. -/
def matchScheme (s : List Char) : Option Nat :=
  if "https://".data.isPrefixOf s then some 8
  else if "http://".data.isPrefixOf s then some 7
  else none

/-- The domain alternation
`(?:(?:www\.)?amazon\.(?:in|com)|amzn\.(?:in|to)|a\.co)` in the regex
engine's preference order; the seven literals are pairwise
prefix-incompatible, so at most one matches at a given position and no
backtracking across the alternation is possible. -/
def matchAlt (s : List Char) : Option Nat :=
  if "www.amazon.in".data.isPrefixOf s then some 13
  else if "www.amazon.com".data.isPrefixOf s then some 14
  else if "amazon.in".data.isPrefixOf s then some 9
  else if "amazon.com".data.isPrefixOf s then some 10
  else if "amzn.in".data.isPrefixOf s then some 7
  else if "amzn.to".data.isPrefixOf s then some 7
  else if "a.co".data.isPrefixOf s then some 4
  else none

/-- One attempt of the Amazon-link pattern
`https?://ALT/[^\s<>"&]+`; returns the matched length. -/
def matchAmznAt (s : List Char) : Option Nat :=
  match matchScheme s with
  | none => none
  | some n1 =>
    match matchAlt (s.drop n1) with
    | none => none
    | some n2 =>
      match s.drop (n1 + n2) with
      | '/' :: r2 =>
        let tail := r2.takeWhile isLinkChar
        if tail.length != 0 then some (n1 + n2 + 1 + tail.length) else none
      | _ => none

/-- `re.findall` of the Amazon-link pattern: leftmost non-overlapping
matches; scanning resumes after each match.  Fuel bounds the
recursion; `s.length` is enough since every step consumes at least one
character. -/
def amznFindallF : Nat → List Char → List (List Char)
  | 0, _ => []
  | fuel + 1, s =>
    match s with
    | [] => []
    | _ :: rest =>
      match matchAmznAt s with
      | some n => s.take n :: amznFindallF fuel (s.drop n)
      | none => amznFindallF fuel rest

/-- `re.findall(amzn_pattern, html)`. -/
def amznFindall (s : List Char) : List (List Char) :=
  amznFindallF s.length s

/-- The literal head of the Google-redirect pattern. -/
def gRedirLit : List Char :=
  "https://www.google.com/url?q=".data

/-- One attempt of the Google-redirect pattern
`https://www\.google\.com/url\?q=(https?://ALT/[^&]+)`; returns the
total matched length and the captured embedded URL. -/
def matchGoogleAt (s : List Char) : Option (Nat × List Char) :=
  if gRedirLit.isPrefixOf s then
    let t := s.drop 29
    match matchScheme t with
    | none => none
    | some n1 =>
      match matchAlt (t.drop n1) with
      | none => none
      | some n2 =>
        match t.drop (n1 + n2) with
        | '/' :: r2 =>
          let tail := r2.takeWhile (fun c => !(c == '&'))
          if tail.length != 0 then
            some (29 + n1 + n2 + 1 + tail.length, t.take (n1 + n2 + 1 + tail.length))
          else none
        | _ => none
  else none

/-- `re.findall` of the Google-redirect pattern, returning the
captured groups. -/
def googleFindallF : Nat → List Char → List (List Char)
  | 0, _ => []
  | fuel + 1, s =>
    match s with
    | [] => []
    | _ :: rest =>
      match matchGoogleAt s with
      | some (n, cap) => cap :: googleFindallF fuel (s.drop n)
      | none => googleFindallF fuel rest

/-- `re.findall(google_redirect_pattern, html)`. -/
def googleFindall (s : List Char) : List (List Char) :=
  googleFindallF s.length s

/-- `list(set(xs))`, modelled as first-occurrence deduplication.  The
iteration order of a Python `set` is unspecified; no theorem below
relies on the order of this list beyond the subsequent title sort. -/
def pyDedupAux (seen : List (List Char)) : List (List Char) → List (List Char)
  | [] => []
  | x :: xs =>
    if x ∈ seen then pyDedupAux seen xs
    else x :: pyDedupAux (x :: seen) xs

/-- `list(set(xs))`. -/
def pyDedup (xs : List (List Char)) : List (List Char) :=
  pyDedupAux [] xs

/-! ### Stable sorting (`list.sort`) -/

/-- Stable insertion of a later element: it goes after every element
not strictly greater than it. -/
def insertLt {α : Type} (lt : α → α → Bool) (b : α) : List α → List α
  | [] => [b]
  | x :: xs => if lt b x then b :: x :: xs else x :: insertLt lt b xs

/-- Stable sort by a strict comparison (`list.sort` is stable; a
stable sort is uniquely determined by its comparison, so insertion
sort is a faithful model). -/
def insSortLt {α : Type} (lt : α → α → Bool) (l : List α) : List α :=
  l.foldl (fun acc b => insertLt lt b acc) []

/-- Python string `<`: lexicographic comparison of code points. -/
def lexLt : List Char → List Char → Bool
  | _, [] => false
  | [], _ :: _ => true
  | a :: as, b :: bs =>
    if a.toNat < b.toNat then true
    else if b.toNat < a.toNat then false
    else lexLt as bs

/-! ### `fetch_and_extract_books` -/

/-- One book record for one extracted link (`book_data` of the
script, with the episode fields added when `episode_info` is given). -/
def mkBook (html : List Char) (episode_info : Option Episode) (link : List Char) : Book :=
  { title := String.mk (inferTitle html link)
    link := String.mk link
    episode_num := episode_info.map (fun e => e.episode_num)
    episode_title := episode_info.map (fun e => e.title)
    episode_date := episode_info.map (fun e => e.date)
    episode_url := episode_info.map (fun e => e.url) }

/-- The link-collection step of `fetch_and_extract_books`:
`list(set(amzn_matches + google_matches))`. -/
def extract_links (html : String) : List (List Char) :=
  pyDedup (amznFindall html.data ++ googleFindall html.data)

/-- The pure core of `fetch_and_extract_books`, applied to an already
fetched page: extract and deduplicate the links of both passes, infer
a title per link, and sort the records by title. -/
def extract_books (html : String) (episode_info : Option Episode) : List Book :=
  insSortLt (fun b1 b2 => lexLt b1.title.data b2.title.data)
    ((extract_links html).map (mkBook html.data episode_info))

/-- `fetch_and_extract_books`: a failed fetch (the `except` branch)
yields the empty list for that page. -/
def fetch_and_extract_books (response : Option String) (episode_info : Option Episode) :
    List Book :=
  match response with
  | none => []
  | some html => extract_books html episode_info

/-! ### `fetch_sitemap` -/

/-- `(\d{1,2})/`: greedily two digits followed by a slash, else one
digit followed by a slash (a failing two-digit attempt cannot
backtrack to one digit, since the following character is then a
digit, not a slash). -/
def take12Digits : List Char → Option (List Char × List Char)
  | c1 :: c2 :: rest =>
    if c1.isDigit then
      if c2.isDigit then
        match rest with
        | '/' :: rest2 => some ([c1, c2], rest2)
        | _ => none
      else if c2 == '/' then some ([c1], rest)
      else none
    else none
  | _ => none

/-- The trailing `(episode-\d+-[^/]+)/` of the episode pattern,
returning the digit run and the hyphen-terminated segment. -/
def epSlug (s : List Char) : Option (List Char × List Char) :=
  match dropLit "episode-".data s with
  | none => none
  | some r =>
    let ds := r.takeWhile Char.isDigit
    if ds.isEmpty then none
    else
      match r.drop ds.length with
      | '-' :: r2 =>
        let seg := r2.takeWhile (fun c => !(c == '/'))
        if seg.isEmpty then none
        else
          match r2.drop seg.length with
          | '/' :: _ => some (ds, seg)
          | _ => none
      | _ => none

/-- One attempt of the episode pattern
`/episodes/(\d{4})/(\d{1,2})/(\d{1,2})/(episode-\d+-[^/]+)/` at the
current position. -/
def epAt (s : List Char) : Option (List Char × List Char × List Char × List Char × List Char) :=
  match dropLit "/episodes/".data s with
  | none => none
  | some r =>
    let year := r.take 4
    if year.length == 4 && year.all Char.isDigit then
      match r.drop 4 with
      | '/' :: r1 =>
        match take12Digits r1 with
        | none => none
        | some (month, r2) =>
          match take12Digits r2 with
          | none => none
          | some (day, r3) =>
            match epSlug r3 with
            | none => none
            | some (ds, seg) => some (year, month, day, ds, seg)
      | _ => none
    else none

/-- `re.search` of the episode pattern. -/
def epSearch : List Char → Option (List Char × List Char × List Char × List Char × List Char)
  | [] => none
  | c :: rest =>
    match epAt (c :: rest) with
    | some g => some g
    | none => epSearch rest

/-- Python `str.zfill(2)` on a digit string. -/
def zfill2 (s : List Char) : List Char :=
  if 2 ≤ s.length then s else List.replicate (2 - s.length) '0' ++ s

/-- Python `str.title()` (ASCII): a letter after a non-letter is
uppercased, a letter after a letter is lowercased. -/
def pyTitleAux : Bool → List Char → List Char
  | _, [] => []
  | prevAlpha, c :: rest =>
    (if c.isAlpha then (if prevAlpha then c.toLower else c.toUpper) else c) ::
      pyTitleAux c.isAlpha rest

/-- Python `str.title()`. -/
def pyTitle (s : List Char) : List Char :=
  pyTitleAux false s

/-- Numeric value of a digit run (`int(...)` of the script's sort
key). -/
def digitsToNat (s : List Char) : Nat :=
  s.foldl (fun n c => 10 * n + (c.toNat - 48)) 0

/-- Build the episode descriptor for one matching location entry.  The
inner `re.match(r'episode-(\d+)-(.+)', slug)` re-captures the digits
and then `.+` takes the segment up to a newline, nonempty. -/
def epFromLoc (loc : String) : Option Episode :=
  match epSearch loc.data with
  | none => none
  | some (year, month, day, ds, seg) =>
    let g2 := seg.takeWhile (fun c => !(c == '\n'))
    if g2.isEmpty then none
    else
      some
        { url := loc
          year := String.mk year
          month := String.mk (zfill2 month)
          day := String.mk (zfill2 day)
          episode_num := String.mk ds
          title := String.mk (pyTitle (g2.map (fun c => if c == '-' then ' ' else c)))
          date := String.mk (year ++ '-' :: zfill2 month ++ '-' :: zfill2 day) }

/-- The pure core of `fetch_sitemap`: `none` is the exception path of
the fetch/parse `try` block and yields the empty list; otherwise the
location entries are filtered through the episode pattern and sorted
ascending by `int(episode_num)` (a stable sort). -/
def fetch_sitemap (response : Option (List String)) : List Episode :=
  match response with
  | none => []
  | some locs =>
    insSortLt
      (fun e1 e2 => decide (digitsToNat e1.episode_num.data < digitsToNat e2.episode_num.data))
      (locs.filterMap epFromLoc)

/-! ### The driver (`process_episodes_batch` and `__main__`) -/

/-- `process_episodes_batch`: visit episodes `start_idx` to
`min (start_idx + batch_size) len - 1` in order, concatenating each
page's book records; a page whose fetch fails contributes nothing and
the loop continues. -/
def process_episodes_batch (pages : String → Option String) (episodes : List Episode)
    (start_idx batch_size : Nat) : List Book :=
  ((episodes.drop start_idx).take batch_size).flatMap
    (fun e => fetch_and_extract_books (pages e.url) (some e))

/-- The `__main__` driver up to deduplication: fetch the sitemap,
halt (`exit(1)`) if the episode list is empty, otherwise process the
batch (`START_INDEX = 0`, `BATCH_SIZE = 500`) and deduplicate. -/
def run_model (sitemap_response : Option (List String)) (pages : String → Option String) :
    Option (List CanonicalBook × List Book) :=
  let episodes := fetch_sitemap sitemap_response
  if episodes.isEmpty then none
  else some (deduplicate_books (process_episodes_batch pages episodes 0 500))

/-! ### CSV generation (`generate_csv`, deduplicated branch) -/

/-- `s.replace('"', '""')`. -/
def csvEscapeL : List Char → List Char
  | [] => []
  | c :: rest => if c == '"' then '"' :: '"' :: csvEscapeL rest else c :: csvEscapeL rest

/-- `s.replace('"', '""')` on strings. -/
def csvEscape (s : String) : String :=
  String.mk (csvEscapeL s.data)

/-- Python truthiness of `ep.get('episode_num')`: present and not the
empty string. -/
def truthyStr : Option String → Bool
  | none => false
  | some s => !s.isEmpty

/-- The semicolon-joined episode-number field of the unique view. -/
def episodeNums (cb : CanonicalBook) : String :=
  String.intercalate ";"
    ((cb.episodes.filter (fun r => truthyStr r.episode_num)).map
      (fun r => r.episode_num.getD ""))

/-- Python `f'...'` rendering of a possibly-`None` value. -/
def pyShow : Option String → String
  | some s => s
  | none => "None"

/-- One row of the unique view:
`f'"[asin]","[title]","[link]",[count],"[nums]"\n'` with the title and
link quote-escaped beforehand and the ASIN and episode numbers
inserted raw. -/
def uniqueRow (cb : CanonicalBook) : String :=
  "\"" ++ cb.asin ++ "\",\"" ++ csvEscape cb.title ++ "\",\"" ++ csvEscape cb.link ++
    "\"," ++ toString cb.episodes.length ++ ",\"" ++ episodeNums cb ++ "\"\n"

/-- The unique-view CSV text (header plus one row per canonical
book). -/
def generate_csv_unique (books : List CanonicalBook) : String :=
  books.foldl (fun acc cb => acc ++ uniqueRow cb)
    "ASIN,Book Title,Amazon Link,Episode Count,Episode Numbers\n"

/-- One row of the expanded view.  The script calls `.replace` on
`episode.get('episode_title', '')` and `episode.get('episode_url',
'')`; when the stored value is `None` (keys are always present) that
call raises, modelled by `none`. -/
def expandedRow (cb : CanonicalBook) (r : EpisodeRef) : Option String :=
  match r.episode_title, r.episode_url with
  | some et, some eu =>
    some (pyShow r.episode_num ++ ",\"" ++ csvEscape et ++ "\"," ++ pyShow r.episode_date ++
      ",\"" ++ cb.asin ++ "\",\"" ++ csvEscape cb.title ++ "\",\"" ++ csvEscape cb.link ++
      "\",\"" ++ csvEscape eu ++ "\"\n")
  | _, _ => none

/-- A standard quoted-field CSV parser, after the opening quote: `""`
decodes to `"`, a lone `"` ends the field, anything else is content.
Returns the field and the rest of the input. -/
def readQF : List Char → Option (List Char × List Char)
  | [] => none
  | [c] => if c = '"' then some ([], []) else none
  | c :: d :: rest =>
    if c = '"' then
      if d = '"' then
        match readQF rest with
        | some (t, r) => some ('"' :: t, r)
        | none => none
      else some ([], d :: rest)
    else
      match readQF (d :: rest) with
      | some (t, r) => some (c :: t, r)
      | none => none

/-- A standard quoted-field CSV parser (expects the opening quote). -/
def readQuotedField : List Char → Option (List Char × List Char)
  | '"' :: rest => readQF rest
  | _ => none

/-! ### Characterisation helpers for the deduplicator -/

/-- The occurrences of the stream that resolve to a given ASIN, in
stream order. -/
def booksFor (K : List Book) (a : String) : List Book :=
  K.filter (fun b => extract_asin b.link == some a)

/-- The provenance entries those occurrences contribute, in stream
order. -/
def refsFor (K : List Book) (a : String) : List EpisodeRef :=
  (booksFor K a).map epRef

/-- The titles those occurrences carry, in stream order. -/
def titlesFor (K : List Book) (a : String) : List String :=
  (booksFor K a).map (fun b => b.title)

/-- The title-upgrade rule of one merge step. -/
def updTitle (t new : String) : String :=
  if is_generic_title t && !is_generic_title new then new else t

/-- The stored title after folding the upgrade rule over a title
stream. -/
def runTitle (t : String) (ts : List String) : String :=
  ts.foldl updTitle t

/-- An occurrence whose link yields no ASIN. -/
def noAsin (b : Book) : Bool :=
  (extract_asin b.link).isNone

/-- Index of the first occurrence of a substring (discovery position
of a link inside the page markup). -/
def firstOcc (needle : List Char) : List Char → Option Nat
  | [] => if needle.isPrefixOf ([] : List Char) then some 0 else none
  | c :: rest =>
    if needle.isPrefixOf (c :: rest) then some 0
    else (firstOcc needle rest).map (fun n => n + 1)

/-- Modelled from the spec (claim C7's description of the fallback):
the anchor branch as in the code, otherwise take up to 200 characters
of markup immediately preceding the link's first occurrence, strip
markup tags, collapse whitespace, split on sentence punctuation and
take the fragment closest to the link with length strictly between 10
and 200, otherwise the placeholder.  This definition follows the
claim's words and is compared against `inferTitle`, which follows the
code. -/
def inferTitleClaimC7 (html link : List Char) : List Char :=
  match anchorSearch link html with
  | some raw => cleanTitle raw
  | none =>
    match firstOcc link html with
    | none => placeholderTitle
    | some p =>
      let before := (html.take p).drop (p - 200)
      let bc := pyStrip (collapseWs (stripTags before))
      match pickFragment (splitPunct bc).reverse with
      | some f => f
      | none => placeholderTitle

/-! ## Sorting lemmas -/

theorem mem_insertLt {α : Type} (lt : α → α → Bool) (b : α) (l : List α) (y : α)
    (h : y ∈ insertLt lt b l) : y = b ∨ y ∈ l := by
  induction l with
  | nil => simpa [insertLt] using h
  | cons x xs ih =>
    simp only [insertLt] at h
    split at h
    · rcases List.mem_cons.mp h with h1 | h1
      · exact Or.inl h1
      · exact Or.inr h1
    · rcases List.mem_cons.mp h with h1 | h1
      · exact Or.inr (by simp [h1])
      · rcases ih h1 with h2 | h2
        · exact Or.inl h2
        · exact Or.inr (List.mem_cons_of_mem _ h2)

theorem pairwise_insertLt {α : Type} (lt : α → α → Bool)
    (hasymm : ∀ a c, lt a c = true → lt c a = false)
    (hnt : ∀ a c d, lt c a = false → lt d c = false → lt d a = false)
    (b : α) (l : List α) (h : l.Pairwise (fun x y => lt y x = false)) :
    (insertLt lt b l).Pairwise (fun x y => lt y x = false) := by
  induction l with
  | nil => simp [insertLt]
  | cons x xs ih =>
    rcases List.pairwise_cons.mp h with ⟨hx, hxs⟩
    simp only [insertLt]
    split
    · rename_i hlt
      refine List.pairwise_cons.mpr ⟨?_, h⟩
      intro y hy
      have hxb : lt x b = false := hasymm b x hlt
      rcases List.mem_cons.mp hy with rfl | hy2
      · exact hxb
      · exact hnt b x y hxb (hx y hy2)
    · rename_i hlt
      have hbx : lt b x = false := by
        revert hlt
        cases lt b x <;> simp
      refine List.pairwise_cons.mpr ⟨?_, ih hxs⟩
      intro y hy
      rcases mem_insertLt lt b xs y hy with rfl | hy2
      · exact hbx
      · exact hx y hy2

theorem pairwise_insSortLt {α : Type} (lt : α → α → Bool)
    (hasymm : ∀ a c, lt a c = true → lt c a = false)
    (hnt : ∀ a c d, lt c a = false → lt d c = false → lt d a = false)
    (l : List α) :
    (insSortLt lt l).Pairwise (fun x y => lt y x = false) := by
  suffices h : ∀ acc : List α, acc.Pairwise (fun x y => lt y x = false) →
      (l.foldl (fun acc b => insertLt lt b acc) acc).Pairwise (fun x y => lt y x = false) by
    exact h [] (by simp)
  induction l with
  | nil => intro acc hacc; exact hacc
  | cons x xs ih =>
    intro acc hacc
    exact ih _ (pairwise_insertLt lt hasymm hnt x acc hacc)

theorem lexLt_asymm : ∀ (a b : List Char), lexLt a b = true → lexLt b a = false
  | a, [], h => by cases a <;> simp [lexLt] at h
  | [], _ :: _, _ => by simp [lexLt]
  | x :: xs, y :: ys, h => by
    simp only [lexLt] at h ⊢
    rcases Nat.lt_trichotomy x.toNat y.toNat with h1 | h1 | h1
    · rw [if_neg (by omega), if_pos h1]
    · rw [if_neg (by omega), if_neg (by omega)] at h ⊢
      exact lexLt_asymm xs ys h
    · rw [if_neg (by omega), if_pos h1] at h
      exact absurd h (by simp)

theorem lexLt_le_trans : ∀ (a b c : List Char),
    lexLt b a = false → lexLt c b = false → lexLt c a = false
  | [], b, c, _, _ => by cases c <;> simp [lexLt]
  | _ :: _, [], _, h1, _ => by simp [lexLt] at h1
  | _ :: _, _ :: _, [], _, h2 => by simp [lexLt] at h2
  | x :: xs, y :: ys, z :: zs, h1, h2 => by
    simp only [lexLt] at h1 h2 ⊢
    have hyx : ¬ (y.toNat < x.toNat) := by
      intro hc; rw [if_pos hc] at h1; exact absurd h1 (by simp)
    have hzy : ¬ (z.toNat < y.toNat) := by
      intro hc; rw [if_pos hc] at h2; exact absurd h2 (by simp)
    rw [if_neg (by omega)]
    by_cases hxz : x.toNat < z.toNat
    · rw [if_pos hxz]
    · rw [if_neg hxz]
      rw [if_neg hyx, if_neg (by omega)] at h1
      rw [if_neg hzy, if_neg (by omega)] at h2
      exact lexLt_le_trans xs ys zs h1 h2

/-! ## Deduplicator lemmas -/

theorem updTitle_self (t : String) : updTitle t t = t := by
  simp [updTitle]

theorem runTitle_cons (t x : String) (ts : List String) :
    runTitle t (x :: ts) = runTitle (updTitle t x) ts := rfl

theorem runTitle_nongeneric (t : String) (h : is_generic_title t = false) :
    ∀ ts : List String, runTitle t ts = t
  | [] => rfl
  | x :: ts => by
    rw [runTitle_cons]
    have hupd : updTitle t x = t := by simp [updTitle, h]
    rw [hupd]
    exact runTitle_nongeneric t h ts

theorem runTitle_generic_all (t : String) (ts : List String)
    (h : is_generic_title (runTitle t ts) = true) :
    is_generic_title t = true ∧ ∀ x ∈ ts, is_generic_title x = true := by
  induction ts generalizing t with
  | nil => exact ⟨h, by simp⟩
  | cons x ts ih =>
    rw [runTitle_cons] at h
    by_cases hx : is_generic_title x = true
    · have hupd : updTitle t x = t := by simp [updTitle, hx]
      rw [hupd] at h
      rcases ih t h with ⟨h1, h2⟩
      refine ⟨h1, ?_⟩
      intro y hy
      rcases List.mem_cons.mp hy with rfl | hy2
      · exact hx
      · exact h2 y hy2
    · exfalso
      have hx2 : is_generic_title x = false := by
        revert hx; cases is_generic_title x <;> simp
      by_cases ht : is_generic_title t = true
      · have hupd : updTitle t x = x := by simp [updTitle, ht, hx2]
        rw [hupd, runTitle_nongeneric x hx2 ts] at h
        exact hx h
      · have ht2 : is_generic_title t = false := by
          revert ht; cases is_generic_title t <;> simp
        have hupd : updTitle t x = t := by simp [updTitle, ht2]
        rw [hupd, runTitle_nongeneric t ht2 ts] at h
        exact ht h

theorem applyOccurrence_eq (b : Book) (cb : CanonicalBook) :
    applyOccurrence b cb =
      ⟨cb.asin, updTitle cb.title b.title, cb.link, cb.episodes ++ [epRef b]⟩ := by
  cases cb
  simp only [applyOccurrence, updTitle]
  split <;> rfl

theorem applyOccurrence_asin (b : Book) (cb : CanonicalBook) :
    (applyOccurrence b cb).asin = cb.asin := by
  rw [applyOccurrence_eq]

theorem findCanon_cons (x : CanonicalBook) (l : List CanonicalBook) (a : String) :
    findCanon (x :: l) a = if x.asin = a then some x else findCanon l a := by
  by_cases h : x.asin = a
  · rw [if_pos h]
    exact List.find?_cons_of_pos _ (by simp [h])
  · rw [if_neg h]
    exact List.find?_cons_of_neg _ (by simp [h])

theorem findCanon_append (l1 l2 : List CanonicalBook) (a : String) :
    findCanon (l1 ++ l2) a =
      match findCanon l1 a with
      | some cb => some cb
      | none => findCanon l2 a := by
  induction l1 with
  | nil => simp [findCanon]
  | cons x xs ih =>
    rw [List.cons_append, findCanon_cons, findCanon_cons]
    by_cases h : x.asin = a
    · rw [if_pos h, if_pos h]
    · rw [if_neg h, if_neg h, ih]

theorem findCanon_isSome_any (l : List CanonicalBook) (a : String) :
    (findCanon l a).isSome = l.any (fun cb => cb.asin == a) := by
  induction l with
  | nil => simp [findCanon]
  | cons x xs ih =>
    rw [findCanon_cons, List.any_cons]
    by_cases h : x.asin = a
    · simp [h]
    · simp only [if_neg h, ih]
      have : (x.asin == a) = false := by simp [h]
      rw [this, Bool.false_or]

theorem findCanon_updateCanon (a a2 : String) (f : CanonicalBook → CanonicalBook)
    (hf : ∀ cb, (f cb).asin = cb.asin) (l : List CanonicalBook) :
    findCanon (updateCanon l a f) a2 =
      if a2 = a then (findCanon l a2).map f else findCanon l a2 := by
  induction l with
  | nil => by_cases h2 : a2 = a <;> simp [findCanon, updateCanon, h2]
  | cons x xs ih =>
    simp only [updateCanon, List.map_cons] at ih ⊢
    by_cases hx : x.asin = a
    · rw [if_pos hx, findCanon_cons, findCanon_cons, hf x]
      by_cases hxa2 : x.asin = a2
      · have h2 : a2 = a := by rw [← hxa2, hx]
        rw [if_pos hxa2, if_pos hxa2, if_pos h2]
        rfl
      · rw [if_neg hxa2, if_neg hxa2, ih]
    · rw [if_neg hx, findCanon_cons, findCanon_cons]
      by_cases hxa2 : x.asin = a2
      · have h2 : ¬ (a2 = a) := fun hc => hx (hxa2.trans hc)
        rw [if_pos hxa2, if_pos hxa2, if_neg h2]
      · rw [if_neg hxa2, if_neg hxa2, ih]

theorem updateCanon_map_asin (l : List CanonicalBook) (a : String)
    (f : CanonicalBook → CanonicalBook) (hf : ∀ cb, (f cb).asin = cb.asin) :
    (updateCanon l a f).map (fun cb => cb.asin) = l.map (fun cb => cb.asin) := by
  induction l with
  | nil => rfl
  | cons x xs ih =>
    simp only [updateCanon, List.map_cons] at ih ⊢
    rw [ih]
    by_cases hx : x.asin = a
    · rw [if_pos hx, hf x]
    · rw [if_neg hx]

theorem dedupStep_findCanon (st : List CanonicalBook × List Book) (b : Book) (a : String) :
    findCanon (dedupStep st b).1 a =
      match extract_asin b.link with
      | none => findCanon st.1 a
      | some c =>
        if a = c then
          match findCanon st.1 a with
          | some cb => some (applyOccurrence b cb)
          | none => some (applyOccurrence b ⟨c, b.title, b.link, []⟩)
        else findCanon st.1 a := by
  cases hx : extract_asin b.link with
  | none => simp [dedupStep, hx]
  | some c =>
    simp only [dedupStep, hx]
    by_cases hmem : st.1.any (fun cb => cb.asin == c) = true
    · rw [if_pos hmem, findCanon_updateCanon c a _ (applyOccurrence_asin b)]
      by_cases hac : a = c
      · rw [if_pos hac, if_pos hac]
        have hsome : (findCanon st.1 a).isSome = true := by
          rw [findCanon_isSome_any, hac]; exact hmem
        cases hcb : findCanon st.1 a with
        | none => rw [hcb] at hsome; simp at hsome
        | some cb => rfl
      · rw [if_neg hac, if_neg hac]
    · rw [if_neg hmem, findCanon_updateCanon c a _ (applyOccurrence_asin b),
        findCanon_append]
      have hnone : findCanon st.1 c = none := by
        have h1 : (findCanon st.1 c).isSome = false := by
          rw [findCanon_isSome_any]
          revert hmem
          cases st.1.any (fun cb => cb.asin == c) <;> simp
        revert h1
        cases findCanon st.1 c <;> simp
      by_cases hac : a = c
      · subst hac
        rw [if_pos rfl, hnone, findCanon_cons]
        simp [findCanon]
      · rw [if_neg hac, if_neg hac]
        cases hcb : findCanon st.1 a with
        | some cb => rfl
        | none =>
          rw [findCanon_cons]
          have : ¬ ((⟨c, b.title, b.link, []⟩ : CanonicalBook).asin = a) :=
            fun hc => hac (by exact (hc.symm : a = c))
          rw [if_neg this]
          simp [findCanon]

theorem booksFor_cons (b : Book) (K : List Book) (a : String) :
    booksFor (b :: K) a =
      if extract_asin b.link = some a then b :: booksFor K a else booksFor K a := by
  by_cases h : extract_asin b.link = some a
  · rw [if_pos h]
    simp [booksFor, List.filter_cons, h]
  · rw [if_neg h]
    simp [booksFor, List.filter_cons, h]

theorem foldl_dedupStep_findCanon (K : List Book) :
    ∀ (st : List CanonicalBook × List Book) (a : String),
      findCanon (List.foldl dedupStep st K).1 a =
        match findCanon st.1 a with
        | some cb =>
          some ⟨cb.asin, runTitle cb.title (titlesFor K a), cb.link,
            cb.episodes ++ refsFor K a⟩
        | none =>
          match booksFor K a with
          | [] => none
          | b :: _ => some ⟨a, runTitle b.title (titlesFor K a), b.link, refsFor K a⟩ := by
  induction K with
  | nil =>
    intro st a
    cases h : findCanon st.1 a with
    | none => simp [booksFor, h]
    | some cb =>
      rw [List.foldl_nil, h]
      simp [titlesFor, refsFor, booksFor, runTitle]
  | cons b K ih =>
    intro st a
    rw [List.foldl_cons, ih, dedupStep_findCanon]
    cases hx : extract_asin b.link with
    | none =>
      have hb : ¬ (extract_asin b.link = some a) := by rw [hx]; simp
      have ht : titlesFor (b :: K) a = titlesFor K a := by
        simp [titlesFor, booksFor_cons, if_neg hb]
      have hr : refsFor (b :: K) a = refsFor K a := by
        simp [refsFor, booksFor_cons, if_neg hb]
      rw [booksFor_cons, if_neg hb, ht, hr]
    | some c =>
      dsimp only
      by_cases hac : a = c
      · subst hac
        rw [if_pos rfl]
        have hb : extract_asin b.link = some a := hx
        have ht : titlesFor (b :: K) a = b.title :: titlesFor K a := by
          simp [titlesFor, booksFor_cons, if_pos hb]
        have hr : refsFor (b :: K) a = epRef b :: refsFor K a := by
          simp [refsFor, booksFor_cons, if_pos hb]
        rw [booksFor_cons, if_pos hb, ht, hr]
        cases hcb : findCanon st.1 a with
        | some cb => simp [applyOccurrence_eq, runTitle_cons]
        | none => simp [applyOccurrence_eq, runTitle_cons, updTitle_self]
      · rw [if_neg hac]
        have hb : ¬ (extract_asin b.link = some a) := by
          rw [hx]
          intro hc
          exact hac (by injection hc with h2; exact h2.symm)
        have ht : titlesFor (b :: K) a = titlesFor K a := by
          simp [titlesFor, booksFor_cons, if_neg hb]
        have hr : refsFor (b :: K) a = refsFor K a := by
          simp [refsFor, booksFor_cons, if_neg hb]
        rw [booksFor_cons, if_neg hb, ht, hr]

theorem foldl_dedupStep_snd (K : List Book) :
    ∀ st : List CanonicalBook × List Book,
      (List.foldl dedupStep st K).2 = st.2 ++ K.filter noAsin := by
  induction K with
  | nil => intro st; simp
  | cons b K ih =>
    intro st
    rw [List.foldl_cons, ih]
    cases hx : extract_asin b.link with
    | none =>
      have hn : noAsin b = true := by simp [noAsin, hx]
      simp [dedupStep, hx, List.filter_cons, hn]
    | some c =>
      have hn : noAsin b = false := by simp [noAsin, hx]
      simp [dedupStep, hx, List.filter_cons, hn]

theorem list_map_ext_mem {α β : Type} (f g : α → β) (l : List α)
    (h : ∀ x ∈ l, f x = g x) : l.map f = l.map g := by
  induction l with
  | nil => rfl
  | cons x xs ih => simp [h x (by simp), ih (fun y hy => h y (by simp [hy]))]

theorem list_any_map {α β : Type} (f : α → β) (p : β → Bool) (l : List α) :
    (l.map f).any p = l.any (fun x => p (f x)) := by
  induction l with
  | nil => rfl
  | cons x xs ih => simp [ih]

theorem list_any_ext {α : Type} (p q : α → Bool) (l : List α)
    (h : ∀ x ∈ l, p x = q x) : l.any p = l.any q := by
  induction l with
  | nil => rfl
  | cons x xs ih => simp [h x (by simp), ih (fun y hy => h y (by simp [hy]))]

theorem foldl_dedupStep_asin_nodup (K : List Book) :
    ∀ st : List CanonicalBook × List Book,
      (st.1.map (fun cb => cb.asin)).Nodup →
      ((List.foldl dedupStep st K).1.map (fun cb => cb.asin)).Nodup := by
  induction K with
  | nil => intro st h; exact h
  | cons b K ih =>
    intro st h
    rw [List.foldl_cons]
    apply ih
    cases hx : extract_asin b.link with
    | none => simpa [dedupStep, hx] using h
    | some c =>
      simp only [dedupStep, hx]
      by_cases hmem : st.1.any (fun cb => cb.asin == c) = true
      · rw [if_pos hmem]
        rw [updateCanon_map_asin _ _ _ (applyOccurrence_asin b)]
        exact h
      · rw [if_neg hmem]
        rw [updateCanon_map_asin _ _ _ (applyOccurrence_asin b), List.map_append]
        refine List.Nodup.append h (by simp) ?_
        intro x hx1 hx2
        simp only [List.map_cons, List.map_nil, List.mem_singleton] at hx2
        subst hx2
        rcases List.mem_map.mp hx1 with ⟨cb, hcb, hasin⟩
        apply hmem
        rw [List.any_eq_true]
        exact ⟨cb, hcb, by simp [hasin]⟩

theorem findCanon_mem (l : List CanonicalBook) (a : String) (cb : CanonicalBook)
    (h : findCanon l a = some cb) : cb ∈ l ∧ cb.asin = a := by
  refine ⟨List.mem_of_find?_eq_some h, ?_⟩
  have h2 := List.find?_some h
  simpa using h2

theorem findCanon_of_mem_nodup (l : List CanonicalBook)
    (hnd : (l.map (fun cb => cb.asin)).Nodup) (cb : CanonicalBook) (hmem : cb ∈ l) :
    findCanon l cb.asin = some cb := by
  induction l with
  | nil => cases hmem
  | cons x xs ih =>
    rw [findCanon_cons]
    rcases List.mem_cons.mp hmem with rfl | hmem2
    · rw [if_pos rfl]
    · rw [List.map_cons, List.nodup_cons] at hnd
      have hx : ¬ (x.asin = cb.asin) := by
        intro hc
        exact hnd.1 (hc ▸ List.mem_map_of_mem (fun cb => cb.asin) hmem2)
      rw [if_neg hx]
      exact ih hnd.2 hmem2

theorem dedup_findCanon (L : List Book) (a : String) :
    findCanon (deduplicate_books L).1 a =
      match booksFor L a with
      | [] => none
      | b :: _ => some ⟨a, runTitle b.title (titlesFor L a), b.link, refsFor L a⟩ := by
  simpa [findCanon] using foldl_dedupStep_findCanon L ([], []) a

theorem dedup_asin_nodup (L : List Book) :
    ((deduplicate_books L).1.map (fun cb => cb.asin)).Nodup :=
  foldl_dedupStep_asin_nodup L ([], []) (by simp)

theorem dedup_snd (L : List Book) : (deduplicate_books L).2 = L.filter noAsin := by
  simpa using foldl_dedupStep_snd L ([], [])

theorem refsFor_cons (b : Book) (K : List Book) (a : String) :
    refsFor (b :: K) a =
      if extract_asin b.link = some a then epRef b :: refsFor K a else refsFor K a := by
  by_cases h : extract_asin b.link = some a
  · simp [refsFor, booksFor_cons, if_pos h]
  · simp [refsFor, booksFor_cons, if_neg h]

theorem dedup_replay (K : List Book) :
    ∀ (M : List CanonicalBook) (N : List Book),
      (∀ b ∈ K, ∀ a, extract_asin b.link = some a →
        M.any (fun cb => cb.asin == a) = true ∧
        ∀ cb ∈ M, cb.asin = a → is_generic_title cb.title = true →
          is_generic_title b.title = true) →
      List.foldl dedupStep (M, N) K =
        (M.map (fun cb =>
          ⟨cb.asin, cb.title, cb.link, cb.episodes ++ refsFor K cb.asin⟩),
         N ++ K.filter noAsin) := by
  induction K with
  | nil =>
    intro M N _
    rw [List.foldl_nil, List.filter_nil, List.append_nil]
    have h1 : M.map (fun cb =>
        (⟨cb.asin, cb.title, cb.link, cb.episodes ++ refsFor [] cb.asin⟩ : CanonicalBook)) = M := by
      have h2 : ∀ cb : CanonicalBook,
          (⟨cb.asin, cb.title, cb.link, cb.episodes ++ refsFor [] cb.asin⟩ : CanonicalBook) = cb := by
        intro cb
        show (⟨cb.asin, cb.title, cb.link, cb.episodes ++ []⟩ : CanonicalBook) = cb
        rw [List.append_nil]
      calc M.map (fun cb =>
            (⟨cb.asin, cb.title, cb.link, cb.episodes ++ refsFor [] cb.asin⟩ : CanonicalBook))
          = M.map id := list_map_ext_mem _ _ M (fun cb _ => h2 cb)
        _ = M := List.map_id M
    rw [h1]
  | cons b K ih =>
    intro M N hyp
    rw [List.foldl_cons]
    cases hx : extract_asin b.link with
    | none =>
      have hstep : dedupStep (M, N) b = (M, N ++ [b]) := by simp [dedupStep, hx]
      have hyp2 : ∀ b2 ∈ K, ∀ a, extract_asin b2.link = some a →
          M.any (fun cb => cb.asin == a) = true ∧
          ∀ cb ∈ M, cb.asin = a → is_generic_title cb.title = true →
            is_generic_title b2.title = true :=
        fun b2 hb2 => hyp b2 (List.mem_cons_of_mem _ hb2)
      rw [hstep, ih M (N ++ [b]) hyp2]
      have hn : noAsin b = true := by simp [noAsin, hx]
      have hr : ∀ a, refsFor (b :: K) a = refsFor K a := by
        intro a
        rw [refsFor_cons, if_neg (by rw [hx]; simp)]
      congr 1
      · exact list_map_ext_mem _ _ M (fun cb _ => by rw [hr cb.asin])
      · rw [List.filter_cons, hn]
        simp
    | some c =>
      have hb := hyp b (by simp) c hx
      have hstep : dedupStep (M, N) b = (updateCanon M c (applyOccurrence b), N) := by
        simp [dedupStep, hx, hb.1]
      have hupd : updateCanon M c (applyOccurrence b) =
          M.map (fun cb => if cb.asin = c then
            (⟨cb.asin, cb.title, cb.link, cb.episodes ++ [epRef b]⟩ : CanonicalBook)
          else cb) := by
        rw [updateCanon]
        apply list_map_ext_mem
        intro cb hcb
        by_cases hasin : cb.asin = c
        · rw [if_pos hasin, if_pos hasin, applyOccurrence_eq]
          have htitle : updTitle cb.title b.title = cb.title := by
            cases hg : is_generic_title cb.title with
            | false => simp [updTitle, hg]
            | true =>
              have hbg : is_generic_title b.title = true := hb.2 cb hcb hasin hg
              simp [updTitle, hg, hbg]
          rw [htitle]
        · rw [if_neg hasin, if_neg hasin]
      have hyp2 : ∀ b2 ∈ K, ∀ a, extract_asin b2.link = some a →
          (M.map (fun cb => if cb.asin = c then
            (⟨cb.asin, cb.title, cb.link, cb.episodes ++ [epRef b]⟩ : CanonicalBook)
          else cb)).any (fun cb => cb.asin == a) = true ∧
          ∀ cb ∈ M.map (fun cb => if cb.asin = c then
            (⟨cb.asin, cb.title, cb.link, cb.episodes ++ [epRef b]⟩ : CanonicalBook)
          else cb), cb.asin = a → is_generic_title cb.title = true →
            is_generic_title b2.title = true := by
        intro b2 hb2 a hxa
        have h0 := hyp b2 (List.mem_cons_of_mem _ hb2) a hxa
        constructor
        · rw [list_any_map, ← h0.1]
          apply list_any_ext
          intro cb _
          by_cases hasin : cb.asin = c
          · rw [if_pos hasin]
          · rw [if_neg hasin]
        · intro cb hcb hasin hg
          rcases List.mem_map.mp hcb with ⟨cb0, hcb0, hmap⟩
          by_cases h0asin : cb0.asin = c
          · rw [if_pos h0asin] at hmap
            have ha : cb0.asin = a := by rw [← hmap] at hasin; exact hasin
            have hg0 : is_generic_title cb0.title = true := by
              rw [← hmap] at hg; exact hg
            exact h0.2 cb0 hcb0 ha hg0
          · rw [if_neg h0asin] at hmap
            subst hmap
            exact h0.2 cb0 hcb0 hasin hg
      rw [hstep, hupd, ih _ N hyp2]
      have hn : noAsin b = false := by simp [noAsin, hx]
      congr 1
      · rw [List.map_map]
        apply list_map_ext_mem
        intro cb _
        simp only [Function.comp]
        rw [refsFor_cons]
        by_cases hasin : cb.asin = c
        · rw [if_pos hasin, if_pos (by rw [hx, hasin])]
          simp
        · rw [if_neg hasin,
            if_neg (by rw [hx]; intro hc; exact hasin (by injection hc with h2; exact h2.symm))]
      · rw [List.filter_cons, hn]
        rfl

/-! ## Identity-resolver lemmas -/

theorem grabAsin_some (s a : List Char) (h : grabAsin s = some a) :
    a.length = 10 ∧ ∀ c ∈ a, isAsinChar c = true := by
  simp only [grabAsin] at h
  split at h
  · rename_i hc
    rw [Bool.and_eq_true] at hc
    injection h with h2
    subst h2
    refine ⟨by simpa using hc.1, ?_⟩
    intro c hcmem
    exact List.all_eq_true.mp hc.2 c hcmem
  · cases h

theorem searchLitAsin_some (lit : List Char) :
    ∀ (s a : List Char), searchLitAsin lit s = some a →
      a.length = 10 ∧ ∀ c ∈ a, isAsinChar c = true
  | [], a, h => by
    simp only [searchLitAsin] at h
    rcases Option.bind_eq_some.mp h with ⟨r, _, hg⟩
    exact grabAsin_some r a hg
  | c :: rest, a, h => by
    simp only [searchLitAsin] at h
    split at h
    · rename_i a2 heq
      injection h with h2
      subst h2
      rcases Option.bind_eq_some.mp heq with ⟨r, _, hg⟩
      exact grabAsin_some r a2 hg
    · exact searchLitAsin_some lit rest a h

theorem bareAt_some (s a : List Char) (h : bareAt s = some a) :
    a.length = 10 ∧ ∀ c ∈ a, isAsinChar c = true := by
  simp only [bareAt] at h
  split at h
  · cases h
  · split at h
    · cases h
    · split at h
      · split at h
        · split at h
          · rename_i x2 hgrab hcond
            injection h with h2
            subst h2
            exact grabAsin_some _ _ hgrab
          · cases h
        · cases h
      · cases h

theorem searchBare_some :
    ∀ (s a : List Char), searchBare s = some a →
      a.length = 10 ∧ ∀ c ∈ a, isAsinChar c = true
  | [], a, h => by simp [searchBare] at h
  | c :: rest, a, h => by
    simp only [searchBare] at h
    split at h
    · rename_i a2 heq
      injection h with h2
      subst h2
      exact bareAt_some _ a2 heq
    · exact searchBare_some rest a h

theorem extract_asin_chars (u a : String) (h : extract_asin u = some a) :
    a.length = 10 ∧ ∀ c ∈ a.data, isAsinChar c = true := by
  simp only [extract_asin] at h
  split at h
  · rename_i a2 heq
    injection h with h2
    subst h2
    exact searchLitAsin_some _ _ a2 heq
  · split at h
    · rename_i a2 heq
      injection h with h2
      subst h2
      exact searchLitAsin_some _ _ a2 heq
    · split at h
      · rename_i a2 heq
        injection h with h2
        subst h2
        exact searchLitAsin_some _ _ a2 heq
      · split at h
        · rename_i a2 heq
          injection h with h2
          subst h2
          exact searchBare_some _ a2 heq
        · cases h

/-! ## Claim theorems -/

/-- C2: the Identity Resolver tries the four identifier-shape patterns
in the fixed order `/dp/`, `/gp/product/`, `/product/`, bare domain
with trailing slash; the first match's captured identifier is
returned, `None` if none matches; every captured identifier is a
10-character (uppercase) alphanumeric string; and a URL containing
both a `/dp/<ID1>` segment and a trailing `<domain>/<ID2>/` segment
resolves to ID1 even though the bare-domain pattern alone would
capture ID2. -/
theorem claim_C2_extract_asin :
    (∀ (u : String) (a : List Char), searchLitAsin "/dp/".data u.data = some a →
      extract_asin u = some (String.mk a)) ∧
    (∀ u : String, extract_asin u = none ↔
      searchLitAsin "/dp/".data u.data = none ∧
      searchLitAsin "/gp/product/".data u.data = none ∧
      searchLitAsin "/product/".data u.data = none ∧
      searchBare u.data = none) ∧
    (∀ (u a : String), extract_asin u = some a →
      a.length = 10 ∧ ∀ c ∈ a.data, isAsinChar c = true) ∧
    extract_asin "https://www.amazon.in/XYZ1234567/dp/B0ABCDEFGH" = some "B0ABCDEFGH" ∧
    searchBare "https://www.amazon.in/XYZ1234567/dp/B0ABCDEFGH".data =
      some "XYZ1234567".data := by
  refine ⟨?_, ?_, ?_, by decide, by decide⟩
  · intro u a h
    simp [extract_asin, h]
  · intro u
    cases h1 : searchLitAsin "/dp/".data u.data with
    | some a => simp [extract_asin, h1]
    | none =>
      cases h2 : searchLitAsin "/gp/product/".data u.data with
      | some a => simp [extract_asin, h1, h2]
      | none =>
        cases h3 : searchLitAsin "/product/".data u.data with
        | some a => simp [extract_asin, h1, h2, h3]
        | none =>
          cases h4 : searchBare u.data with
          | some a => simp [extract_asin, h1, h2, h3, h4]
          | none => simp [extract_asin, h1, h2, h3, h4]
  · intro u a h
    exact extract_asin_chars u a h

/-- Witness for C2: the general precedence statement evaluated at a
concrete URL. -/
theorem claim_C2_extract_asin_witness :
    extract_asin "https://x/dp/AAAAAAAAAA" = some (String.mk "AAAAAAAAAA".data) :=
  claim_C2_extract_asin.1 "https://x/dp/AAAAAAAAAA" "AAAAAAAAAA".data (by decide)

/-- C4 counterexample: the claim says a title containing
"amazon link" as a substring classifies as generic, but the script
uses `re.match` (anchored at the start of the string), so
"Buy on Amazon Link" — which contains the substring after lowering
and stripping — is not classified generic. -/
theorem claim_C4_substring_counterexample :
    is_generic_title "Buy on Amazon Link" = false ∧
    "amazon link".data <:+: pyStrip (pyLower "Buy on Amazon Link".data) :=
  ⟨by decide, by decide⟩

/-- C4 (amended): the classifier lowercases and trims, then returns
true iff the result matches one of the fixed anchored phrases, or
starts with "amazon" whitespace "link" (a prefix test, not a
substring test), or is shorter than 5 characters; the claim's
concrete instances all hold. -/
theorem claim_C4_generic_classifier :
    is_generic_title "1" = true ∧
    is_generic_title "here" = true ∧
    is_generic_title "Buy Here" = true ∧
    is_generic_title "Amazon Link to Book" = true ∧
    is_generic_title "The Psychology of Money" = false ∧
    (∀ t : String,
      matchToksHead ["amazon".data, "link".data] (pyStrip (pyLower t.data)) = true →
      is_generic_title t = true) ∧
    (∀ t : String, (pyStrip (pyLower t.data)).length < 5 → is_generic_title t = true) := by
  refine ⟨by decide, by decide, by decide, by decide, by decide, ?_, ?_⟩
  · intro t h
    simp only [is_generic_title]
    simp [h]
  · intro t h
    simp only [is_generic_title]
    simp [h]

/-- Witness for C4: the prefix rule and the short-title rule applied
at concrete titles. -/
theorem claim_C4_generic_classifier_witness :
    is_generic_title "amazon  linkzzz" = true ∧ is_generic_title "xy" = true :=
  ⟨claim_C4_generic_classifier.2.2.2.2.2.1 "amazon  linkzzz" (by decide),
   claim_C4_generic_classifier.2.2.2.2.2.2 "xy" (by decide)⟩

/-- C1: once the stored title of a canonical record is non-generic it
is never changed by any later occurrence with the same identifier
(first conjunct: extending the stream never alters a non-generic
title), and one merge step replaces the stored title exactly when the
stored title is generic and the new occurrence's title is not (second
conjunct). -/
theorem claim_C1_title_one_way :
    (∀ (books more : List Book) (a : String) (cb : CanonicalBook),
      findCanon (deduplicate_books books).1 a = some cb →
      is_generic_title cb.title = false →
      ∃ cb', findCanon (deduplicate_books (books ++ more)).1 a = some cb' ∧
        cb'.title = cb.title) ∧
    (∀ (st : List CanonicalBook × List Book) (b : Book) (a : String) (cb : CanonicalBook),
      extract_asin b.link = some a →
      findCanon st.1 a = some cb →
      ∃ cb', findCanon (dedupStep st b).1 a = some cb' ∧
        cb'.title = (if is_generic_title cb.title && !is_generic_title b.title
                     then b.title else cb.title)) := by
  constructor
  · intro books more a cb hfind hng
    have hsplit : deduplicate_books (books ++ more) =
        List.foldl dedupStep (deduplicate_books books) more := by
      rw [deduplicate_books, deduplicate_books, List.foldl_append]
    rw [hsplit, foldl_dedupStep_findCanon more _ a, hfind]
    dsimp only
    exact ⟨_, rfl, runTitle_nongeneric cb.title hng _⟩
  · intro st b a cb hx hfind
    rw [dedupStep_findCanon, hx]
    dsimp only
    rw [if_pos rfl, hfind]
    dsimp only
    refine ⟨_, rfl, ?_⟩
    rw [applyOccurrence_eq]
    rfl

/-- Witness for C1: a non-generic title recorded from the first
occurrence survives a later generic occurrence of the same
identifier. -/
theorem claim_C1_title_one_way_witness :
    ∃ cb', findCanon (deduplicate_books
        ([⟨"Sapiens", "https://www.amazon.in/dp/B0ABCDEFGH", none, none, none, none⟩] ++
         [⟨"here", "https://www.amazon.in/dp/B0ABCDEFGH", none, none, none, none⟩])).1
        "B0ABCDEFGH" = some cb' ∧
      cb'.title = "Sapiens" :=
  claim_C1_title_one_way.1
    [⟨"Sapiens", "https://www.amazon.in/dp/B0ABCDEFGH", none, none, none, none⟩]
    [⟨"here", "https://www.amazon.in/dp/B0ABCDEFGH", none, none, none, none⟩]
    "B0ABCDEFGH"
    ⟨"B0ABCDEFGH", "Sapiens", "https://www.amazon.in/dp/B0ABCDEFGH",
      [⟨none, none, none, none⟩]⟩
    (by decide) (by decide)

/-- C3: running the Deduplicator on `L ++ L` yields the same
canonical list (same identifiers in the same first-seen order, same
titles, same links) as running it on `L`, except every episode list
is doubled; the no-identifier side list is likewise doubled.  In
particular a generic-to-non-generic upgrade of the first pass is
preserved by the second. -/
theorem claim_C3_dedup_idempotent (L : List Book) :
    deduplicate_books (L ++ L) =
      ((deduplicate_books L).1.map (fun cb =>
        ⟨cb.asin, cb.title, cb.link, cb.episodes ++ cb.episodes⟩),
       (deduplicate_books L).2 ++ (deduplicate_books L).2) := by
  have hnd := dedup_asin_nodup L
  have hsplit : deduplicate_books (L ++ L) =
      List.foldl dedupStep (deduplicate_books L) L := by
    rw [deduplicate_books, deduplicate_books, List.foldl_append]
  have hyp : ∀ b ∈ L, ∀ a, extract_asin b.link = some a →
      (deduplicate_books L).1.any (fun cb => cb.asin == a) = true ∧
      ∀ cb ∈ (deduplicate_books L).1, cb.asin = a →
        is_generic_title cb.title = true → is_generic_title b.title = true := by
    intro b hb a hx
    have hbf : b ∈ booksFor L a := by
      rw [booksFor, List.mem_filter]
      exact ⟨hb, by simp [hx]⟩
    have hne : booksFor L a ≠ [] := fun hc => by rw [hc] at hbf; cases hbf
    constructor
    · rw [← findCanon_isSome_any, dedup_findCanon]
      cases hbf2 : booksFor L a with
      | nil => exact absurd hbf2 hne
      | cons b0 rest => simp
    · intro cb hcbmem hasin hgen
      have hfind : findCanon (deduplicate_books L).1 cb.asin = some cb :=
        findCanon_of_mem_nodup _ hnd cb hcbmem
      rw [hasin, dedup_findCanon] at hfind
      cases hbf2 : booksFor L a with
      | nil => exact absurd hbf2 hne
      | cons b0 rest =>
        rw [hbf2] at hfind
        dsimp only at hfind
        injection hfind with h2
        have htitle : cb.title = runTitle b0.title (titlesFor L a) := by
          rw [← h2]
        rw [htitle] at hgen
        have hall := (runTitle_generic_all _ _ hgen).2
        apply hall
        rw [titlesFor]
        exact List.mem_map_of_mem (fun b => b.title) hbf
  rw [hsplit]
  cases hpair : deduplicate_books L with
  | mk M N =>
    have hM : (deduplicate_books L).1 = M := by rw [hpair]
    have hN : (deduplicate_books L).2 = N := by rw [hpair]
    rw [hM] at hyp
    rw [dedup_replay L M N (fun b hb => hyp b hb)]
    congr 1
    · apply list_map_ext_mem
      intro cb hcb
      have hfind := findCanon_of_mem_nodup _ hnd cb (by rw [hM]; exact hcb)
      rw [dedup_findCanon] at hfind
      cases hbf : booksFor L cb.asin with
      | nil =>
        rw [hbf] at hfind
        dsimp only at hfind
        cases hfind
      | cons b0 rest =>
        rw [hbf] at hfind
        dsimp only at hfind
        injection hfind with h2
        have he : cb.episodes = refsFor L cb.asin := by rw [← h2]
        rw [← he]
    · rw [← hN, dedup_snd]

/-- C5 counterexample: within one page the occurrence stream is
sorted by title, not emitted in discovery order — in this page the
first-discovered link (occurring at index 9, before the other link at
index 44) is listed second because its inferred title sorts later. -/
theorem claim_C5_order_counterexample :
    extract_books
        "<a href=\"https://a.co/z1\">Zebra</a><a href=\"https://a.co/a1\">Apple</a>" none =
      [⟨"Apple", "https://a.co/a1", none, none, none, none⟩,
       ⟨"Zebra", "https://a.co/z1", none, none, none, none⟩] ∧
    firstOcc "https://a.co/z1".data
      "<a href=\"https://a.co/z1\">Zebra</a><a href=\"https://a.co/a1\">Apple</a>".data =
      some 9 ∧
    firstOcc "https://a.co/a1".data
      "<a href=\"https://a.co/z1\">Zebra</a><a href=\"https://a.co/a1\">Apple</a>".data =
      some 44 :=
  ⟨by decide, by decide, by decide⟩

/-- C5 (amended): every identifier occurs at most once in the
canonical list; each canonical record's episode list is exactly the
provenance of that identifier's occurrences in encounter order, and
extending the stream only appends to it; within one page the
occurrence stream is emitted in ascending title order (the script
sorts each page's records by title before returning them). -/
theorem claim_C5_stream_invariants :
    (∀ L : List Book, ((deduplicate_books L).1.map (fun cb => cb.asin)).Nodup) ∧
    (∀ (L : List Book) (cb : CanonicalBook), cb ∈ (deduplicate_books L).1 →
      cb.episodes = refsFor L cb.asin) ∧
    (∀ (L more : List Book) (cb : CanonicalBook), cb ∈ (deduplicate_books L).1 →
      ∃ cb', cb' ∈ (deduplicate_books (L ++ more)).1 ∧ cb'.asin = cb.asin ∧
        cb'.episodes = cb.episodes ++ refsFor more cb.asin) ∧
    (∀ (html : String) (episode_info : Option Episode),
      (extract_books html episode_info).Pairwise
        (fun b1 b2 => lexLt b2.title.data b1.title.data = false)) := by
  have hep : ∀ (L : List Book) (cb : CanonicalBook), cb ∈ (deduplicate_books L).1 →
      cb.episodes = refsFor L cb.asin := by
    intro L cb hcb
    have hfind := findCanon_of_mem_nodup _ (dedup_asin_nodup L) cb hcb
    rw [dedup_findCanon] at hfind
    cases hbf : booksFor L cb.asin with
    | nil =>
      rw [hbf] at hfind
      dsimp only at hfind
      cases hfind
    | cons b0 rest =>
      rw [hbf] at hfind
      dsimp only at hfind
      injection hfind with h2
      rw [← h2]
  refine ⟨fun L => dedup_asin_nodup L, hep, ?_, ?_⟩
  · intro L more cb hcb
    have hfind := findCanon_of_mem_nodup _ (dedup_asin_nodup L) cb hcb
    have hsplit : deduplicate_books (L ++ more) =
        List.foldl dedupStep (deduplicate_books L) more := by
      rw [deduplicate_books, deduplicate_books, List.foldl_append]
    have hres := foldl_dedupStep_findCanon more (deduplicate_books L) cb.asin
    rw [hfind] at hres
    dsimp only at hres
    rw [← hsplit] at hres
    refine ⟨_, (findCanon_mem _ _ _ hres).1, rfl, ?_⟩
    exact hep L cb hcb ▸ rfl
  · intro html episode_info
    rw [extract_books]
    apply pairwise_insSortLt
    · intro b1 b2 h
      exact lexLt_asymm _ _ h
    · intro b1 b2 b3 h1 h2
      exact lexLt_le_trans _ _ _ h1 h2

/-- Witness for C5: the episode list of the single canonical record
of a one-occurrence stream is that occurrence's provenance entry. -/
theorem claim_C5_stream_invariants_witness :
    (⟨"B0ABCDEFGH", "Sapiens", "https://www.amazon.in/dp/B0ABCDEFGH",
      [⟨some "1", some "E", some "D", some "U"⟩]⟩ : CanonicalBook).episodes =
      refsFor [⟨"Sapiens", "https://www.amazon.in/dp/B0ABCDEFGH",
        some "1", some "E", some "D", some "U"⟩] "B0ABCDEFGH" :=
  claim_C5_stream_invariants.2.1
    [⟨"Sapiens", "https://www.amazon.in/dp/B0ABCDEFGH", some "1", some "E", some "D", some "U"⟩]
    ⟨"B0ABCDEFGH", "Sapiens", "https://www.amazon.in/dp/B0ABCDEFGH",
      [⟨some "1", some "E", some "D", some "U"⟩]⟩
    (by decide)

/-- C6: the Sitemap Reader zero-pads month and day to two digits,
takes the leading integer of the slug as the episode number,
title-cases the remaining slug (hyphens to spaces), composes the date
string, and returns the episodes sorted ascending by numeric episode
number — episode "9" sorts before episode "10". -/
theorem claim_C6_sitemap :
    (∀ response : Option (List String),
      (fetch_sitemap response).Pairwise
        (fun e1 e2 => digitsToNat e1.episode_num.data ≤ digitsToNat e2.episode_num.data)) ∧
    fetch_sitemap (some
      ["https://seenunseen.in/episodes/2023/10/5/episode-10-the-art-of-x/",
       "https://seenunseen.in/episodes/2023/9/5/episode-9-foo-bar/"]) =
      [⟨"https://seenunseen.in/episodes/2023/9/5/episode-9-foo-bar/",
        "2023", "09", "05", "9", "Foo Bar", "2023-09-05"⟩,
       ⟨"https://seenunseen.in/episodes/2023/10/5/episode-10-the-art-of-x/",
        "2023", "10", "05", "10", "The Art Of X", "2023-10-05"⟩] := by
  refine ⟨?_, by decide⟩
  intro response
  cases response with
  | none => simp [fetch_sitemap]
  | some locs =>
    simp only [fetch_sitemap]
    have h := pairwise_insSortLt
      (fun e1 e2 : Episode =>
        decide (digitsToNat e1.episode_num.data < digitsToNat e2.episode_num.data))
      (by intro a c hac; simp at hac ⊢; omega)
      (by intro a c d h1 h2; simp at h1 h2 ⊢; omega)
      (locs.filterMap epFromLoc)
    refine h.imp ?_
    intro a b hh
    simp at hh
    omega

/-! ## Link-extraction lemmas -/

theorem pyDedupAux_mem (y : List Char) :
    ∀ (xs seen : List (List Char)), y ∈ pyDedupAux seen xs ↔ (y ∈ xs ∧ y ∉ seen)
  | [], seen => by simp [pyDedupAux]
  | x :: xs, seen => by
    by_cases hx : x ∈ seen
    · rw [pyDedupAux, if_pos hx, pyDedupAux_mem y xs seen]
      constructor
      · rintro ⟨h1, h2⟩
        exact ⟨List.mem_cons_of_mem x h1, h2⟩
      · rintro ⟨h1, h2⟩
        rcases List.mem_cons.mp h1 with rfl | h3
        · exact absurd hx h2
        · exact ⟨h3, h2⟩
    · rw [pyDedupAux, if_neg hx, List.mem_cons, pyDedupAux_mem y xs (x :: seen)]
      constructor
      · rintro (rfl | ⟨h1, h2⟩)
        · exact ⟨List.mem_cons_self y xs, hx⟩
        · refine ⟨List.mem_cons_of_mem x h1, ?_⟩
          intro hcon
          exact h2 (List.mem_cons_of_mem x hcon)
      · rintro ⟨h1, h2⟩
        rcases List.mem_cons.mp h1 with rfl | h3
        · exact Or.inl rfl
        · by_cases hyx : y = x
          · exact Or.inl hyx
          · refine Or.inr ⟨h3, ?_⟩
            intro hcon
            rcases List.mem_cons.mp hcon with h5 | h5
            · exact hyx h5
            · exact h2 h5

theorem pyDedupAux_nodup :
    ∀ (xs seen : List (List Char)), (pyDedupAux seen xs).Nodup
  | [], _ => by simp [pyDedupAux]
  | x :: xs, seen => by
    simp only [pyDedupAux]
    split
    · exact pyDedupAux_nodup xs seen
    · rw [List.nodup_cons]
      refine ⟨?_, pyDedupAux_nodup xs (x :: seen)⟩
      intro hc
      rw [pyDedupAux_mem] at hc
      exact hc.2 (List.mem_cons_self x seen)

/-- C8: the Link Extractor merges the direct pass and the
redirector-unwrapping pass and deduplicates by exact string equality
with set semantics (no duplicates, membership is exactly that of the
merged passes); the concrete redirector-wrapped page contributes the
unwrapped link exactly once, yielding exactly one occurrence
record. -/
theorem claim_C8_link_extraction :
    (∀ html : String, (extract_links html).Nodup) ∧
    (∀ (html : String) (l : List Char),
      l ∈ extract_links html ↔ l ∈ amznFindall html.data ++ googleFindall html.data) ∧
    extract_links "see https://www.google.com/url?q=https://amzn.in/XYZ1234567&sa=D here" =
      ["https://amzn.in/XYZ1234567".data] ∧
    (extract_books "see https://www.google.com/url?q=https://amzn.in/XYZ1234567&sa=D here"
      none).map (fun b => b.link) = ["https://amzn.in/XYZ1234567"] := by
  refine ⟨?_, ?_, by decide, by decide⟩
  · intro html
    rw [extract_links, pyDedup]
    exact pyDedupAux_nodup _ []
  · intro html l
    rw [extract_links, pyDedup, pyDedupAux_mem]
    simp

/-- C9: a sitemap failure yields the empty episode list and the
driver halts before processing any episode; a single page failure
contributes an empty book list for that episode only while the
neighbouring episodes contribute unchanged, and the run always
produces a result when the episode list is nonempty. -/
theorem claim_C9_failure_model :
    fetch_sitemap none = [] ∧
    (∀ pages : String → Option String, run_model none pages = none) ∧
    (∀ (pages : String → Option String) (eps1 eps2 : List Episode) (e : Episode),
      pages e.url = none →
      (eps1 ++ e :: eps2).flatMap
          (fun ep => fetch_and_extract_books (pages ep.url) (some ep)) =
        eps1.flatMap (fun ep => fetch_and_extract_books (pages ep.url) (some ep)) ++
        eps2.flatMap (fun ep => fetch_and_extract_books (pages ep.url) (some ep))) ∧
    (∀ (locs : List String) (pages : String → Option String),
      fetch_sitemap (some locs) ≠ [] →
      run_model (some locs) pages =
        some (deduplicate_books
          (process_episodes_batch pages (fetch_sitemap (some locs)) 0 500))) := by
  refine ⟨rfl, fun pages => rfl, ?_, ?_⟩
  · intro pages eps1 eps2 e h
    rw [List.flatMap_append, List.flatMap_cons, h]
    simp [fetch_and_extract_books]
  · intro locs pages h
    cases hl : fetch_sitemap (some locs) with
    | nil => exact absurd hl h
    | cons e es => simp [run_model, hl]

/-- Witness for C9: a failing page in the middle of a three-episode
batch contributes nothing while its neighbours are unaffected. -/
theorem claim_C9_failure_model_witness :
    ([(⟨"u1", "2020", "01", "01", "1", "T1", "2020-01-01"⟩ : Episode)] ++
      (⟨"u2", "2020", "01", "02", "2", "T2", "2020-01-02"⟩ : Episode) ::
      [(⟨"u3", "2020", "01", "03", "3", "T3", "2020-01-03"⟩ : Episode)]).flatMap
        (fun ep => fetch_and_extract_books
          ((fun u => if u = "u2" then none else some "no links here") ep.url) (some ep)) =
      [(⟨"u1", "2020", "01", "01", "1", "T1", "2020-01-01"⟩ : Episode)].flatMap
        (fun ep => fetch_and_extract_books
          ((fun u => if u = "u2" then none else some "no links here") ep.url) (some ep)) ++
      [(⟨"u3", "2020", "01", "03", "3", "T3", "2020-01-03"⟩ : Episode)].flatMap
        (fun ep => fetch_and_extract_books
          ((fun u => if u = "u2" then none else some "no links here") ep.url) (some ep)) :=
  claim_C9_failure_model.2.2.1
    (fun u => if u = "u2" then none else some "no links here")
    [⟨"u1", "2020", "01", "01", "1", "T1", "2020-01-01"⟩]
    [⟨"u3", "2020", "01", "03", "3", "T3", "2020-01-03"⟩]
    ⟨"u2", "2020", "01", "02", "2", "T2", "2020-01-02"⟩
    (by decide)

/-! ## Title-inference lemmas -/

theorem tryCtxK_isSome (link s : List Char) (hpre : link.isPrefixOf s = true) :
    ∀ k : Nat, (tryCtxK link s k).isSome = true
  | 0 => by simp [tryCtxK, hpre]
  | k + 1 => by
    simp only [tryCtxK]
    split
    · simp
    · exact tryCtxK_isSome link s hpre k

theorem ctxAt_isSome (link s : List Char) (hpre : link.isPrefixOf s = true) :
    (ctxAt link s).isSome = true :=
  tryCtxK_isSome link s hpre _

theorem ctxSearch_isSome_of_infix (link : List Char) :
    ∀ html : List Char, link <:+: html → (ctxSearch link html).isSome = true := by
  intro html
  induction html with
  | nil =>
    intro h
    rw [List.infix_nil] at h
    subst h
    decide
  | cons c rest ih =>
    intro h
    by_cases hpre : link.isPrefixOf (c :: rest) = true
    · simp only [ctxSearch]
      cases hca : ctxAt link (c :: rest) with
      | some b => simp
      | none =>
        have h2 := ctxAt_isSome link (c :: rest) hpre
        rw [hca] at h2
        simp at h2
    · have h2 : link <:+: rest := by
        rcases h with ⟨s, t, hst⟩
        cases s with
        | nil =>
          exfalso
          apply hpre
          rw [List.isPrefixOf_iff_prefix]
          exact ⟨t, by simpa using hst⟩
        | cons x s2 =>
          rw [List.cons_append, List.cons_append] at hst
          injection hst with h1 h1b
          exact ⟨s2, t, h1b⟩
      simp only [ctxSearch]
      cases hca : ctxAt link (c :: rest) with
      | some b => simp
      | none => exact ih h2

theorem mem_take_takeWhile {α : Type} (p : α → Bool) :
    ∀ (l : List α) (k : Nat), k ≤ (l.takeWhile p).length →
      ∀ x ∈ l.take k, p x = true := by
  intro l
  induction l with
  | nil => intro k hk x hx; simp at hx
  | cons a l ih =>
    intro k hk x hx
    cases k with
    | zero => simp at hx
    | succ k2 =>
      rw [List.take_succ_cons] at hx
      by_cases hpa : p a = true
      · rw [List.takeWhile_cons_of_pos hpa, List.length_cons] at hk
        rcases List.mem_cons.mp hx with rfl | hx2
        · exact hpa
        · exact ih k2 (by omega) x hx2
      · rw [List.takeWhile_cons_of_neg (by simpa using hpa)] at hk
        simp at hk

theorem tryCtxK_clean (link s : List Char) :
    ∀ (k : Nat) (b : List Char), k ≤ cleanRunLen s → tryCtxK link s k = some b →
      ∀ c ∈ b, ¬ (c = '<' ∨ c = '>')
  | 0, b, hk, h => by
    simp only [tryCtxK] at h
    split at h
    · injection h with h2
      subst h2
      intro c hc
      cases hc
    · cases h
  | k + 1, b, hk, h => by
    simp only [tryCtxK] at h
    split at h
    · injection h with h2
      subst h2
      intro c hc
      have hp := mem_take_takeWhile (fun c => !(c == '<' || c == '>')) s (k + 1) hk c hc
      simp at hp
      intro hor
      rcases hor with rfl | rfl
      · exact hp.1 rfl
      · exact hp.2 rfl
    · exact tryCtxK_clean link s k b (by omega) h

theorem ctxAt_clean (link s b : List Char) (h : ctxAt link s = some b) :
    ∀ c ∈ b, ¬ (c = '<' ∨ c = '>') := by
  rw [ctxAt] at h
  exact tryCtxK_clean link s _ b (Nat.min_le_right 200 (cleanRunLen s)) h

theorem ctxSearch_clean (link : List Char) :
    ∀ (html b : List Char), ctxSearch link html = some b → ∀ c ∈ b, ¬ (c = '<' ∨ c = '>')
  | [], b, h => by
    simp only [ctxSearch] at h
    exact ctxAt_clean link [] b h
  | c0 :: rest, b, h => by
    simp only [ctxSearch] at h
    split at h
    · rename_i b0 heq
      injection h with h2
      subst h2
      exact ctxAt_clean link (c0 :: rest) b0 heq
    · exact ctxSearch_clean link rest b h

theorem pickFragment_bounds :
    ∀ (ps : List (List Char)) (f : List Char), pickFragment ps = some f →
      10 < f.length ∧ f.length < 200
  | [], f, h => by simp [pickFragment] at h
  | p :: ps, f, h => by
    simp only [pickFragment] at h
    split at h
    · rename_i hcond
      injection h with h2
      subst h2
      rw [Bool.and_eq_true] at hcond
      exact ⟨by simpa using hcond.1, by simpa using hcond.2⟩
    · exact pickFragment_bounds ps f h

theorem fragmentFallback_bounds (before f : List Char)
    (h : fragmentFallback before = some f) : 10 < f.length ∧ f.length < 200 := by
  simp only [fragmentFallback] at h
  split at h
  · exact pickFragment_bounds _ f h
  · cases h

/-- C7 counterexample: the claim's fallback reads 200 raw characters
before the link's first occurrence and strips tags, but the code's
context window `[^<>]{0,200}` never crosses a tag boundary — on a page
whose link directly follows a closing tag the code emits the
placeholder while the claim's reading recovers the text inside the
preceding tag pair.  The third conjunct shows the link is exactly what
the extractor produces for this page. -/
theorem claim_C7_window_counterexample :
    inferTitle "<p>Some long book title here</p>https://a.co/x1 ".data
      "https://a.co/x1".data = placeholderTitle ∧
    inferTitleClaimC7 "<p>Some long book title here</p>https://a.co/x1 ".data
      "https://a.co/x1".data = "Some long book title here".data ∧
    amznFindall "<p>Some long book title here</p>https://a.co/x1 ".data =
      ["https://a.co/x1".data] :=
  ⟨by decide, by decide, by decide⟩

/-- C7 (amended): for a link occurring in the page, the context
search always succeeds and yields a window free of angle brackets (so
the subsequent tag-stripping is vacuous); the title is the cleaned
anchor inner text when the anchor search succeeds, otherwise the
fragment chosen from that window, otherwise the placeholder; any
chosen fragment has length strictly between 10 and 200. -/
theorem claim_C7_title_inference :
    (∀ html link : List Char, link <:+: html →
      ∃ before, ctxSearch link html = some before ∧
        ∀ c ∈ before, ¬ (c = '<' ∨ c = '>')) ∧
    (∀ (html link raw : List Char), link <:+: html →
      anchorSearch link html = some raw →
      inferTitle html link = cleanTitle raw) ∧
    (∀ (html link before : List Char), ctxSearch link html = some before →
      anchorSearch link html = none →
      inferTitle html link =
        (match fragmentFallback before with
         | some f => f
         | none => placeholderTitle)) ∧
    (∀ before f : List Char, fragmentFallback before = some f →
      10 < f.length ∧ f.length < 200) := by
  refine ⟨?_, ?_, ?_, fragmentFallback_bounds⟩
  · intro html link h
    have h1 := ctxSearch_isSome_of_infix link html h
    cases hc : ctxSearch link html with
    | none => rw [hc] at h1; simp at h1
    | some b => exact ⟨b, rfl, ctxSearch_clean link html b hc⟩
  · intro html link raw hinf hanchor
    have h1 := ctxSearch_isSome_of_infix link html hinf
    cases hc : ctxSearch link html with
    | none => rw [hc] at h1; simp at h1
    | some b => simp [inferTitle, hc, hanchor]
  · intro html link before hc hanchor
    simp [inferTitle, hc, hanchor]

/-- Witness for C7: the anchor branch at a concrete page. -/
theorem claim_C7_title_inference_witness :
    inferTitle "<a href=\"https://a.co/x1\">Sapiens</a>".data "https://a.co/x1".data =
      cleanTitle "Sapiens".data :=
  claim_C7_title_inference.2.1 "<a href=\"https://a.co/x1\">Sapiens</a>".data
    "https://a.co/x1".data "Sapiens".data (by decide) (by decide)

/-! ## CSV lemmas -/

theorem readQF_escape (t : List Char) :
    ∀ rest : List Char, rest.head? ≠ some '"' →
      readQF (csvEscapeL t ++ '"' :: rest) = some (t, rest) := by
  induction t with
  | nil =>
    intro rest h
    show readQF ('"' :: rest) = some ([], rest)
    cases rest with
    | nil => rfl
    | cons c rest2 =>
      have hc : ¬ (c = '"') := by
        intro hcc
        subst hcc
        exact h rfl
      rw [readQF, if_pos rfl, if_neg hc]
  | cons c t ih =>
    intro rest h
    by_cases hc : c = '"'
    · subst hc
      show readQF ('"' :: '"' :: (csvEscapeL t ++ '"' :: rest)) = some ('"' :: t, rest)
      rw [readQF, if_pos rfl, if_pos rfl, ih rest h]
    · have hstep : csvEscapeL (c :: t) = c :: csvEscapeL t := by
        simp [csvEscapeL, hc]
      rw [hstep, List.cons_append]
      cases hE : csvEscapeL t ++ '"' :: rest with
      | nil => simp at hE
      | cons d X2 =>
        rw [readQF, if_neg hc, ← hE, ih rest h]

/-- C10 counterexample: the claim says every field value inserted
into a row has embedded double quotes doubled, but the ASIN field is
inserted raw — a canonical record whose identifier contains a double
quote is rendered with that quote undoubled. -/
theorem claim_C10_quoting_counterexample :
    ¬ ("B\"\"12345678".data <:+: (uniqueRow ⟨"B\"12345678", "T", "L", []⟩).data) ∧
    "B\"12345678".data <:+: (uniqueRow ⟨"B\"12345678", "T", "L", []⟩).data :=
  ⟨by decide, by decide⟩

/-- C10 (amended): quote-doubling is applied to the title, link,
episode-title and episode-URL fields (first conjunct: a doubled field
parses back to the original value under a standard quoted-field
parser); identifier, count, episode-number and date fields are
inserted raw, which is harmless in the pipeline because extracted
identifiers consist of uppercase alphanumerics only (second
conjunct); a title containing a double quote is rendered doubled and
parses back (last two conjuncts). -/
theorem claim_C10_csv_quoting :
    (∀ (t rest : List Char), rest.head? ≠ some '"' →
      readQuotedField ('"' :: csvEscapeL t ++ '"' :: rest) = some (t, rest)) ∧
    (∀ (u a : String), extract_asin u = some a → '"' ∉ a.data) ∧
    uniqueRow ⟨"B0ABCDEFGH", "He \"said\" hi", "L", []⟩ =
      "\"B0ABCDEFGH\",\"He \"\"said\"\" hi\",\"L\",0,\"\"\n" ∧
    readQuotedField "\"He \"\"said\"\" hi\",rest".data =
      some ("He \"said\" hi".data, ",rest".data) := by
  refine ⟨?_, ?_, by decide, by decide⟩
  · intro t rest h
    simp only [readQuotedField]
    exact readQF_escape t rest h
  · intro u a h
    intro hc
    have h2 := (extract_asin_chars u a h).2 '"' hc
    exact absurd h2 (by decide)

/-- Witness for C10: the round-trip statement at a concrete title
containing a quote. -/
theorem claim_C10_csv_quoting_witness :
    readQuotedField ('"' :: csvEscapeL "ab\"c".data ++ '"' :: ",x".data) =
      some ("ab\"c".data, ",x".data) :=
  claim_C10_csv_quoting.1 "ab\"c".data ",x".data (by decide)

end SeenUnseen
